import Mathlib

/-!
Shallow embedding of the `multipartdownloader` Go package: the chunk
planner (`buildChunks`), the metadata reconciliation of `GatherInfo`
(probe gathering, length/etag agreement, etag quote stripping, filename
derivation), the `Download` coordinator loop, the staging-file setup
(`SetupFile`) and the digest comparison of `CheckSHA256`/`CheckMD5`.
Machine `int64` values are modelled as `Int`; Go's `%` and `/` agree
with `Int.emod` / `Int.ediv` on the nonnegative operands that occur here.
-/

namespace MultipartDownloader

/-- Fixed staging-file suffix, the source constant `tmpFileSuffix`. -/
def tmpFileSuffix : String := ".part"

/-- Chunk boundaries, the source struct `Chunk` with fields `Begin`, `End`. -/
structure Chunk where
  Begin : Int
  End : Int
deriving DecidableEq, Repr

/-- The loop of `buildChunks` (one iteration per chunk), carrying the
mutable loop state `(remainder, boundary, nextBoundary)`; the first
argument counts the remaining iterations. -/
def buildChunksLoop : Nat → Int → Int → Int → Int → List Chunk
  | 0, _, _, _, _ => []
  | Nat.succ k, chunkSize, remainder, boundary, nextBoundary =>
    if 0 < remainder then
      Chunk.mk boundary (nextBoundary + 1) ::
        buildChunksLoop k chunkSize (remainder - 1) (nextBoundary + 1)
          (nextBoundary + 1 + chunkSize)
    else
      Chunk.mk boundary nextBoundary ::
        buildChunksLoop k chunkSize remainder nextBoundary (nextBoundary + chunkSize)

/-- `buildChunks`: split `fileLength` into `nConns` chunks, distributing the
remainder of the division among the first chunks.  Returns `none` for
`nConns = 0`, where the Go code hits an integer division by zero
(a runtime panic) at `fileLength % n`. -/
def buildChunks (fileLength : Int) (nConns : Nat) : Option (List Chunk) :=
  if nConns = 0 then none
  else
    let n : Int := nConns
    let remainder := fileLength % n
    let exactNumerator := fileLength - remainder
    let chunkSize := exactNumerator / n
    some (buildChunksLoop nConns chunkSize remainder 0 chunkSize)

/-- Indexing into the chunk table, with a default chunk past the end. -/
def chunkAt : List Chunk → Nat → Chunk
  | [], _ => Chunk.mk 0 0
  | c :: _, 0 => c
  | _ :: cs, Nat.succ n => chunkAt cs n

lemma buildChunksLoop_length (k : Nat) :
    ∀ q r b nb, (buildChunksLoop k q r b nb).length = k := by
  induction k with
  | zero => intro q r b nb; rfl
  | succ k ih =>
    intro q r b nb
    unfold buildChunksLoop
    by_cases h : 0 < r
    · rw [if_pos h]; simp [ih]
    · rw [if_neg h]; simp [ih]

/-- Closed form for the chunks produced by the loop, provided the loop is
entered with `nextBoundary = boundary + chunkSize` (as `buildChunks` does). -/
lemma chunkAt_buildChunksLoop (i : Nat) :
    ∀ (k : Nat) (q r b : Int), 0 ≤ r → i < k →
      chunkAt (buildChunksLoop k q r b (b + q)) i =
        Chunk.mk (b + (i : Int) * q + min (i : Int) r)
          (b + ((i : Int) + 1) * q + min ((i : Int) + 1) r) := by
  induction i with
  | zero =>
    intro k q r b hr hk
    cases k with
    | zero => omega
    | succ k =>
      unfold buildChunksLoop
      by_cases h : 0 < r
      · rw [if_pos h]
        show Chunk.mk b (b + q + 1) = _
        rw [Chunk.mk.injEq]
        push_cast
        constructor
        · have h1 : min (0 : Int) r = 0 := by omega
          rw [h1]; ring
        · have h2 : min (1 : Int) r = 1 := by omega
          rw [h2]; ring
      · rw [if_neg h]
        show Chunk.mk b (b + q) = _
        rw [Chunk.mk.injEq]
        push_cast
        constructor
        · have h1 : min (0 : Int) r = 0 := by omega
          rw [h1]; ring
        · have h2 : min (1 : Int) r = 0 := by omega
          rw [h2]; ring
  | succ i ih =>
    intro k q r b hr hk
    cases k with
    | zero => omega
    | succ k =>
      unfold buildChunksLoop
      by_cases h : 0 < r
      · rw [if_pos h]
        show chunkAt (buildChunksLoop k q (r - 1) (b + q + 1) (b + q + 1 + q)) i = _
        rw [ih k q (r - 1) (b + q + 1) (by omega) (by omega)]
        rw [Chunk.mk.injEq]
        push_cast
        constructor
        · have h1 : min ((i : Int) + 1) r = min (i : Int) (r - 1) + 1 := by omega
          rw [h1]; ring
        · have h2 : min ((i : Int) + 1 + 1) r = min ((i : Int) + 1) (r - 1) + 1 := by
            omega
          rw [h2]; ring
      · rw [if_neg h]
        show chunkAt (buildChunksLoop k q r (b + q) (b + q + q)) i = _
        rw [ih k q r (b + q) hr (by omega)]
        rw [Chunk.mk.injEq]
        push_cast
        constructor
        · have h1 : min ((i : Int) + 1) r = min (i : Int) r := by omega
          rw [h1]; ring
        · have h2 : min ((i : Int) + 1 + 1) r = min ((i : Int) + 1) r := by omega
          rw [h2]; ring

/-- For a positive worker count, `buildChunks` succeeds and each chunk has
the closed form `[i*q + min i r, (i+1)*q + min (i+1) r)` with `q` the
quotient and `r` the remainder of `fileLength / nConns`. -/
lemma buildChunks_closedForm (L : Int) (n : Nat) (hn : 1 ≤ n) :
    ∃ cs, buildChunks L n = some cs ∧ cs.length = n ∧
      ∀ i : Nat, i < n →
        chunkAt cs i =
          Chunk.mk ((i : Int) * (L / (n : Int)) + min (i : Int) (L % (n : Int)))
            (((i : Int) + 1) * (L / (n : Int)) + min ((i : Int) + 1) (L % (n : Int))) := by
  have hn0 : (n : Int) ≠ 0 := by
    simpa using (by omega : n ≠ 0)
  have hq : (L - L % (n : Int)) / (n : Int) = L / (n : Int) := by
    have hdm := Int.ediv_add_emod L (n : Int)
    have hsub : L - L % (n : Int) = (n : Int) * (L / (n : Int)) := by omega
    rw [hsub, Int.mul_ediv_cancel_left _ hn0]
  have hr : 0 ≤ L % (n : Int) := Int.emod_nonneg L hn0
  refine ⟨buildChunksLoop n (L / (n : Int)) (L % (n : Int)) 0 (L / (n : Int)),
    ?_, buildChunksLoop_length n _ _ _ _, ?_⟩
  · unfold buildChunks
    rw [if_neg (by omega : ¬ n = 0)]
    simp only [hq]
  · intro i hi
    have key := chunkAt_buildChunksLoop i n (L / (n : Int)) (L % (n : Int)) 0 hr hi
    rw [zero_add] at key
    rw [key, Chunk.mk.injEq]
    constructor
    · ring
    · ring

/-- Claim C1: for every `fileLength ≥ 0` and worker count `nConns ≥ 1`,
`buildChunks` produces exactly `nConns` chunks that are contiguous (each
chunk's `End` equals the next chunk's `Begin`), non-overlapping, begin at
`0`, end at `fileLength`, have pairwise size difference at most `1`, and
follow the remainder-distribution policy: the first `fileLength % nConns`
chunks have size `fileLength / nConns + 1` and the rest have size
`fileLength / nConns`. -/
theorem buildChunks_partitions (fileLength : Int) (nConns : Nat)
    (hL : 0 ≤ fileLength) (hN : 1 ≤ nConns) :
    ∃ cs, buildChunks fileLength nConns = some cs ∧
      cs.length = nConns ∧
      (chunkAt cs 0).Begin = 0 ∧
      (chunkAt cs (nConns - 1)).End = fileLength ∧
      (∀ i : Nat, i + 1 < nConns →
        (chunkAt cs i).End = (chunkAt cs (i + 1)).Begin) ∧
      (∀ i j : Nat, i < j → j < nConns →
        (chunkAt cs i).End ≤ (chunkAt cs j).Begin) ∧
      (∀ i : Nat, i < nConns →
        (chunkAt cs i).End - (chunkAt cs i).Begin =
          if (i : Int) < fileLength % (nConns : Int) then
            fileLength / (nConns : Int) + 1
          else fileLength / (nConns : Int)) ∧
      (∀ i j : Nat, i < nConns → j < nConns →
        ((chunkAt cs i).End - (chunkAt cs i).Begin) -
          ((chunkAt cs j).End - (chunkAt cs j).Begin) ≤ 1) := by
  obtain ⟨cs, hcs, hlen, hform⟩ := buildChunks_closedForm fileLength nConns hN
  have hn0 : ((nConns : Int)) ≠ 0 := by
    simpa using (by omega : nConns ≠ 0)
  have hnpos : (0 : Int) < (nConns : Int) := by
    exact_mod_cast (by omega : 0 < nConns)
  set q := fileLength / (nConns : Int) with hqdef
  set r := fileLength % (nConns : Int) with hrdef
  have hr0 : 0 ≤ r := Int.emod_nonneg fileLength hn0
  have hrn : r < (nConns : Int) := Int.emod_lt_of_pos fileLength hnpos
  have hq0 : 0 ≤ q := Int.ediv_nonneg hL (le_of_lt hnpos)
  have hsum : (nConns : Int) * q + r = fileLength := Int.ediv_add_emod fileLength _
  have hsize : ∀ i : Nat, i < nConns →
      (chunkAt cs i).End - (chunkAt cs i).Begin =
        if (i : Int) < r then q + 1 else q := by
    intro i hi
    rw [hform i hi]
    by_cases h : (i : Int) < r
    · rw [if_pos h]
      have h1 : min ((i : Int) + 1) r = (i : Int) + 1 := by omega
      have h2 : min (i : Int) r = (i : Int) := by omega
      show ((i : Int) + 1) * q + min ((i : Int) + 1) r -
        ((i : Int) * q + min (i : Int) r) = q + 1
      rw [h1, h2]; ring
    · rw [if_neg h]
      have h1 : min ((i : Int) + 1) r = r := by omega
      have h2 : min (i : Int) r = r := by omega
      show ((i : Int) + 1) * q + min ((i : Int) + 1) r -
        ((i : Int) * q + min (i : Int) r) = q
      rw [h1, h2]; ring
  refine ⟨cs, hcs, hlen, ?_, ?_, ?_, ?_, hsize, ?_⟩
  · rw [hform 0 (by omega)]
    show (0 : Int) * q + min (0 : Int) r = 0
    have h1 : min (0 : Int) r = 0 := by omega
    rw [h1]; ring
  · rw [hform (nConns - 1) (by omega)]
    show (((nConns - 1 : Nat) : Int) + 1) * q +
      min (((nConns - 1 : Nat) : Int) + 1) r = fileLength
    have hcast : ((nConns - 1 : Nat) : Int) + 1 = (nConns : Int) := by omega
    rw [hcast]
    have hmin : min ((nConns : Int)) r = r := by omega
    rw [hmin]
    exact hsum
  · intro i hi
    rw [hform i (by omega), hform (i + 1) (by omega)]
    show ((i : Int) + 1) * q + min ((i : Int) + 1) r =
      ((i + 1 : Nat) : Int) * q + min ((i + 1 : Nat) : Int) r
    push_cast
    ring_nf
  · intro i j hij hj
    rw [hform i (by omega), hform j hj]
    show ((i : Int) + 1) * q + min ((i : Int) + 1) r ≤
      (j : Int) * q + min (j : Int) r
    have hij' : (i : Int) + 1 ≤ (j : Int) := by exact_mod_cast hij
    have h1 : ((i : Int) + 1) * q ≤ (j : Int) * q :=
      mul_le_mul_of_nonneg_right hij' hq0
    have h2 : min ((i : Int) + 1) r ≤ min (j : Int) r := by omega
    linarith
  · intro i j hi hj
    have si := hsize i hi
    have sj := hsize j hj
    split_ifs at si sj <;> omega

/-- Witness for C1 at `fileLength = 10`, `nConns = 3`. -/
theorem buildChunks_partitions_witness :
    (0 : Int) ≤ 10 ∧ (1 : Nat) ≤ 3 ∧
    ∃ cs, buildChunks 10 3 = some cs ∧
      cs.length = 3 ∧
      (chunkAt cs 0).Begin = 0 ∧
      (chunkAt cs (3 - 1)).End = 10 ∧
      (∀ i : Nat, i + 1 < 3 →
        (chunkAt cs i).End = (chunkAt cs (i + 1)).Begin) ∧
      (∀ i j : Nat, i < j → j < 3 →
        (chunkAt cs i).End ≤ (chunkAt cs j).Begin) ∧
      (∀ i : Nat, i < 3 →
        (chunkAt cs i).End - (chunkAt cs i).Begin =
          if (i : Int) < (10 : Int) % ((3 : Nat) : Int) then
            (10 : Int) / ((3 : Nat) : Int) + 1
          else (10 : Int) / ((3 : Nat) : Int)) ∧
      (∀ i j : Nat, i < 3 → j < 3 →
        ((chunkAt cs i).End - (chunkAt cs i).Begin) -
          ((chunkAt cs j).End - (chunkAt cs j).Begin) ≤ 1) :=
  ⟨by decide, by decide, buildChunks_partitions 10 3 (by decide) (by decide)⟩

/-- Worker-to-coordinator events of `Download`: a goroutine signals `done`
on completing its chunk and `failed` after exhausting all mirrors once. -/
inductive DlEvent
  | done
  | failed
deriving DecidableEq, Repr

/-- Outcome of the coordinator loop: `success` (the loop exits and the
staging file is renamed), `exhausted` (the `ExhaustedMirrors` error
return), or `running` when the event stream ends before termination. -/
inductive DlOutcome
  | success
  | exhausted
  | running (remaining : Nat) (failedCount : Nat)
deriving DecidableEq, Repr

/-- The coordinator loop of `Download`: starting from
`remainingChunks = nConns`, `failedCount = 0`, process events; on `done`
decrement `remainingChunks` (and return a token); on `failed` increment
`failedCount` and abort when `failedCount ≥ nConns`; exit successfully
once `remainingChunks = 0`. -/
def coordLoop (nConns : Nat) : Nat → Nat → List DlEvent → DlOutcome
  | 0, _, _ => DlOutcome.success
  | Nat.succ rem, fc, [] => DlOutcome.running (Nat.succ rem) fc
  | Nat.succ rem, fc, DlEvent.done :: es => coordLoop nConns rem fc es
  | Nat.succ rem, fc, DlEvent.failed :: es =>
    if nConns ≤ fc + 1 then DlOutcome.exhausted
    else coordLoop nConns (Nat.succ rem) (fc + 1) es

/-- Number of `done` events in a stream. -/
def countDone : List DlEvent → Nat
  | [] => 0
  | DlEvent.done :: es => countDone es + 1
  | DlEvent.failed :: es => countDone es

/-- Number of `failed` events in a stream. -/
def countFailed : List DlEvent → Nat
  | [] => 0
  | DlEvent.done :: es => countFailed es
  | DlEvent.failed :: es => countFailed es + 1

@[simp] lemma countDone_nil : countDone [] = 0 := rfl

@[simp] lemma countDone_done (es : List DlEvent) :
    countDone (DlEvent.done :: es) = countDone es + 1 := rfl

@[simp] lemma countDone_failed (es : List DlEvent) :
    countDone (DlEvent.failed :: es) = countDone es := rfl

@[simp] lemma countFailed_nil : countFailed [] = 0 := rfl

@[simp] lemma countFailed_done (es : List DlEvent) :
    countFailed (DlEvent.done :: es) = countFailed es := rfl

@[simp] lemma countFailed_failed (es : List DlEvent) :
    countFailed (DlEvent.failed :: es) = countFailed es + 1 := rfl

lemma countFailed_take_le (es : List DlEvent) :
    ∀ k, countFailed (es.take k) ≤ countFailed es := by
  induction es with
  | nil => intro k; simp
  | cons e es ih =>
    intro k
    cases k with
    | zero => simp
    | succ k =>
      cases e with
      | done => simpa using ih k
      | failed =>
        rw [List.take_succ_cons, countFailed_failed, countFailed_failed]
        have := ih k
        omega

/-- The loop aborts with `ExhaustedMirrors` exactly when some processed
prefix accumulates `N - fc` further failures before `rem` further
completions. -/
lemma coordLoop_exhausted_iff (N : Nat) :
    ∀ (es : List DlEvent) (rem fc : Nat), fc < N →
      (coordLoop N rem fc es = DlOutcome.exhausted ↔
        ∃ k, k ≤ es.length ∧ fc + countFailed (es.take k) = N ∧
          countDone (es.take k) < rem) := by
  intro es
  induction es with
  | nil =>
    intro rem fc hfc
    constructor
    · intro h
      cases rem with
      | zero => simp [coordLoop] at h
      | succ rem => simp [coordLoop] at h
    · rintro ⟨k, hk, hsum, _⟩
      have hk0 : k = 0 := by simpa using hk
      subst hk0
      simp at hsum
      omega
  | cons e es ih =>
    intro rem fc hfc
    cases rem with
    | zero =>
      constructor
      · intro h; simp [coordLoop] at h
      · rintro ⟨k, hk, hsum, hcd⟩; omega
    | succ rem =>
      cases e with
      | done =>
        have hstep : coordLoop N (rem + 1) fc (DlEvent.done :: es) =
            coordLoop N rem fc es := rfl
        rw [hstep, ih rem fc hfc]
        constructor
        · rintro ⟨k, hk, hsum, hcd⟩
          refine ⟨k + 1, ?_, ?_, ?_⟩
          · simp; omega
          · rw [List.take_succ_cons, countFailed_done]; exact hsum
          · rw [List.take_succ_cons, countDone_done]; omega
        · rintro ⟨k, hk, hsum, hcd⟩
          cases k with
          | zero => simp at hsum hcd; omega
          | succ k =>
            refine ⟨k, ?_, ?_, ?_⟩
            · simp at hk; omega
            · rw [List.take_succ_cons, countFailed_done] at hsum; exact hsum
            · rw [List.take_succ_cons, countDone_done] at hcd; omega
      | failed =>
        by_cases hN : N ≤ fc + 1
        · have hstep : coordLoop N (rem + 1) fc (DlEvent.failed :: es) =
              DlOutcome.exhausted := by
            show (if N ≤ fc + 1 then DlOutcome.exhausted
              else coordLoop N (rem + 1) (fc + 1) es) = DlOutcome.exhausted
            rw [if_pos hN]
          rw [hstep]
          constructor
          · intro _
            refine ⟨1, ?_, ?_, ?_⟩
            · simp
            · rw [show List.take 1 (DlEvent.failed :: es) =
                [DlEvent.failed] from by simp]
              simp
              omega
            · rw [show List.take 1 (DlEvent.failed :: es) =
                [DlEvent.failed] from by simp]
              simp
          · intro _; rfl
        · have hstep : coordLoop N (rem + 1) fc (DlEvent.failed :: es) =
              coordLoop N (rem + 1) (fc + 1) es := by
            show (if N ≤ fc + 1 then DlOutcome.exhausted
              else coordLoop N (rem + 1) (fc + 1) es) =
              coordLoop N (rem + 1) (fc + 1) es
            rw [if_neg hN]
          rw [hstep, ih (rem + 1) (fc + 1) (by omega)]
          constructor
          · rintro ⟨k, hk, hsum, hcd⟩
            refine ⟨k + 1, ?_, ?_, ?_⟩
            · simp; omega
            · rw [List.take_succ_cons, countFailed_failed]; omega
            · rw [List.take_succ_cons, countDone_failed]; omega
          · rintro ⟨k, hk, hsum, hcd⟩
            cases k with
            | zero => simp at hsum; omega
            | succ k =>
              refine ⟨k, ?_, ?_, ?_⟩
              · simp at hk; omega
              · rw [List.take_succ_cons, countFailed_failed] at hsum; omega
              · rw [List.take_succ_cons, countDone_failed] at hcd; omega

/-- The loop exits successfully exactly when some processed prefix reaches
`rem` completions while failures stay below the budget. -/
lemma coordLoop_success_iff (N : Nat) :
    ∀ (es : List DlEvent) (rem fc : Nat), fc < N →
      (coordLoop N rem fc es = DlOutcome.success ↔
        ∃ k, k ≤ es.length ∧ countDone (es.take k) = rem ∧
          fc + countFailed (es.take k) < N) := by
  intro es
  induction es with
  | nil =>
    intro rem fc hfc
    cases rem with
    | zero =>
      constructor
      · intro _
        exact ⟨0, by simp, by simp, by simpa using hfc⟩
      · intro _; rfl
    | succ rem =>
      constructor
      · intro h; simp [coordLoop] at h
      · rintro ⟨k, hk, hcd, _⟩
        have hk0 : k = 0 := by simpa using hk
        subst hk0
        simp at hcd
  | cons e es ih =>
    intro rem fc hfc
    cases rem with
    | zero =>
      constructor
      · intro _
        exact ⟨0, by simp, by simp, by simpa using hfc⟩
      · intro _; rfl
    | succ rem =>
      cases e with
      | done =>
        have hstep : coordLoop N (rem + 1) fc (DlEvent.done :: es) =
            coordLoop N rem fc es := rfl
        rw [hstep, ih rem fc hfc]
        constructor
        · rintro ⟨k, hk, hcd, hcf⟩
          refine ⟨k + 1, ?_, ?_, ?_⟩
          · simp; omega
          · rw [List.take_succ_cons, countDone_done]; omega
          · rw [List.take_succ_cons, countFailed_done]; omega
        · rintro ⟨k, hk, hcd, hcf⟩
          cases k with
          | zero => simp at hcd
          | succ k =>
            refine ⟨k, ?_, ?_, ?_⟩
            · simp at hk; omega
            · rw [List.take_succ_cons, countDone_done] at hcd; omega
            · rw [List.take_succ_cons, countFailed_done] at hcf; omega
      | failed =>
        by_cases hN : N ≤ fc + 1
        · have hstep : coordLoop N (rem + 1) fc (DlEvent.failed :: es) =
              DlOutcome.exhausted := by
            show (if N ≤ fc + 1 then DlOutcome.exhausted
              else coordLoop N (rem + 1) (fc + 1) es) = DlOutcome.exhausted
            rw [if_pos hN]
          rw [hstep]
          constructor
          · intro h; exact absurd h (by simp)
          · rintro ⟨k, hk, hcd, hcf⟩
            cases k with
            | zero => simp at hcd
            | succ k =>
              rw [List.take_succ_cons, countFailed_failed] at hcf
              omega
        · have hstep : coordLoop N (rem + 1) fc (DlEvent.failed :: es) =
              coordLoop N (rem + 1) (fc + 1) es := by
            show (if N ≤ fc + 1 then DlOutcome.exhausted
              else coordLoop N (rem + 1) (fc + 1) es) =
              coordLoop N (rem + 1) (fc + 1) es
            rw [if_neg hN]
          rw [hstep, ih (rem + 1) (fc + 1) (by omega)]
          constructor
          · rintro ⟨k, hk, hcd, hcf⟩
            refine ⟨k + 1, ?_, ?_, ?_⟩
            · simp; omega
            · rw [List.take_succ_cons, countDone_failed]; omega
            · rw [List.take_succ_cons, countFailed_failed]; omega
          · rintro ⟨k, hk, hcd, hcf⟩
            cases k with
            | zero => simp at hcd
            | succ k =>
              refine ⟨k, ?_, ?_, ?_⟩
              · simp at hk; omega
              · rw [List.take_succ_cons, countDone_failed] at hcd; omega
              · rw [List.take_succ_cons, countFailed_failed] at hcf; omega

/-- Claim C4: starting from `remainingChunks = N`, `failedCount = 0`, the
`Download` coordinator aborts with `ExhaustedMirrors` exactly when the
cumulative count of `failed` events reaches `N` (a global budget, before
`N` chunks have completed), never aborts while the cumulative count stays
below `N`, and exits successfully (proceeding to the rename) once `N`
`done` events are received with fewer than `N` cumulative failures. -/
theorem download_coordinator_spec (N : Nat) (hN : 1 ≤ N) (es : List DlEvent) :
    (coordLoop N N 0 es = DlOutcome.exhausted ↔
      ∃ k, k ≤ es.length ∧ countFailed (es.take k) = N ∧
        countDone (es.take k) < N) ∧
    (coordLoop N N 0 es = DlOutcome.success ↔
      ∃ k, k ≤ es.length ∧ countDone (es.take k) = N ∧
        countFailed (es.take k) < N) ∧
    (countFailed es < N → coordLoop N N 0 es ≠ DlOutcome.exhausted) := by
  have h1 := coordLoop_exhausted_iff N es N 0 (by omega)
  have h2 := coordLoop_success_iff N es N 0 (by omega)
  refine ⟨by simpa using h1, by simpa using h2, ?_⟩
  intro hlt hcontra
  rw [h1] at hcontra
  obtain ⟨k, hk, hsum, _⟩ := hcontra
  have := countFailed_take_le es k
  omega

/-- Witness for C4 at `N = 3` with three straight failures. -/
theorem download_coordinator_spec_witness :
    (1 : Nat) ≤ 3 ∧
    ((coordLoop 3 3 0 [DlEvent.failed, DlEvent.failed, DlEvent.failed] =
        DlOutcome.exhausted ↔
      ∃ k, k ≤ [DlEvent.failed, DlEvent.failed, DlEvent.failed].length ∧
        countFailed ([DlEvent.failed, DlEvent.failed, DlEvent.failed].take k) = 3 ∧
        countDone ([DlEvent.failed, DlEvent.failed, DlEvent.failed].take k) < 3) ∧
    (coordLoop 3 3 0 [DlEvent.failed, DlEvent.failed, DlEvent.failed] =
        DlOutcome.success ↔
      ∃ k, k ≤ [DlEvent.failed, DlEvent.failed, DlEvent.failed].length ∧
        countDone ([DlEvent.failed, DlEvent.failed, DlEvent.failed].take k) = 3 ∧
        countFailed ([DlEvent.failed, DlEvent.failed, DlEvent.failed].take k) < 3) ∧
    (countFailed [DlEvent.failed, DlEvent.failed, DlEvent.failed] < 3 →
      coordLoop 3 3 0 [DlEvent.failed, DlEvent.failed, DlEvent.failed] ≠
        DlOutcome.exhausted)) :=
  ⟨by decide, download_coordinator_spec 3 (by decide)
    [DlEvent.failed, DlEvent.failed, DlEvent.failed]⟩

/-- Info gathered from each mirror, the source struct `urlInfo`. -/
structure urlInfo where
  url : String
  fileLength : Int
  etag : String
  connSuccess : Bool
  statusCode : Nat
deriving DecidableEq, Repr

/-- A HEAD response as seen by `getHead`: status code plus the
`Content-Length` and `Etag` header values (Go's `Header.Get` returns `""`
for a missing header). -/
structure HeadResponse where
  statusCode : Nat
  contentLength : String
  etag : String
deriving DecidableEq, Repr

/-- Decimal digit accumulation for the `Content-Length` model. -/
def parseDecimal : List Char → Nat → Option Nat
  | [], acc => some acc
  | c :: rest, acc =>
    if c.isDigit then parseDecimal rest (acc * 10 + (c.toNat - 48))
    else none

/-- Models `strconv.ParseInt(s, 0, 64)` on the inputs relevant here:
`none` for an empty or non-numeric header value, the value for a string
of decimal digits.  (Signs and base prefixes of base-0 parsing do not
occur in `Content-Length` headers and are omitted.) -/
def parseContentLength (s : String) : Option Int :=
  if s.toList = [] then none
  else (parseDecimal s.toList 0).map Int.ofNat

/-- `getHead`'s processing of one mirror: a transport error yields
`connSuccess = false`; otherwise the probe is recorded as successful with
the parsed `Content-Length`, defaulting to `0` when the header is missing
or unparseable. -/
def processHead (u : String) (resp : Option HeadResponse) : urlInfo :=
  match resp with
  | none =>
    { url := u, fileLength := 0, etag := "", connSuccess := false,
      statusCode := 0 }
  | some r =>
    { url := u, fileLength := (parseContentLength r.contentLength).getD 0,
      etag := r.etag, connSuccess := true, statusCode := r.statusCode }

/-- The result-gathering loop of `GatherInfo`: the first gathered probe
that failed to connect or returned a non-200 status aborts with a
connection error naming that mirror. -/
def findBadProbe : List urlInfo → Option String
  | [] => none
  | r :: rs =>
    if r.connSuccess = false ∨ r.statusCode ≠ 200 then some r.url
    else findBadProbe rs

/-- The agreement loop over `resArray[1:]`: every further mirror must
report the first mirror's length, and its etag must be empty or equal to
the first mirror's etag. -/
def checkAgreementL (commonFileLength : Int) (commonEtag : String) :
    List urlInfo → Bool
  | [] => true
  | r :: rs =>
    if r.fileLength ≠ commonFileLength ∨ (r.etag ≠ "" ∧ r.etag ≠ commonEtag)
    then false
    else checkAgreementL commonFileLength commonEtag rs

/-- Etag normalisation: a non-empty common etag has its first and last
byte removed by the slice `commonEtag[1:len-1]`; for a one-byte etag that
slice has low bound 1 above high bound 0 and Go panics (`none`). -/
def stripEtag (s : String) : Option String :=
  if s = "" then some ""
  else if 2 ≤ s.toList.length then
    some (String.mk ((s.toList.drop 1).dropLast))
  else none

/-- Scan for the `://` separator; models the scheme/authority split of
`net/url.Parse` for ordinary absolute URLs. -/
def dropSchemeSep : List Char → Option (List Char)
  | [] => none
  | ':' :: '/' :: '/' :: rest => some rest
  | _ :: rest => dropSchemeSep rest

/-- Models `net/url.Parse` restricted to what `urlToFilename` consumes:
parsing fails on ASCII control characters; otherwise the `Path` component
is the substring starting at the first `/` after the scheme-and-authority
part (empty if there is none), or the whole string for a scheme-less URL. -/
def parseUrlPath (cs : List Char) : Option (List Char) :=
  if cs.any (fun c => c.toNat < 32) then none
  else
    match dropSchemeSep cs with
    | none => some cs
    | some rest => some (rest.dropWhile (fun c => c != '/'))

/-- Go `path.Split`'s file component: everything after the final `/`. -/
def splitFile (p : List Char) : List Char :=
  (p.reverse.takeWhile (fun c => c != '/')).reverse

/-- `urlToFilename`: parse the URL, fall back to `"downloaded-file"` when
parsing fails, else take the file component of the path. -/
def urlToFilename (urlStr : String) : String :=
  match parseUrlPath urlStr.toList with
  | none => "downloaded-file"
  | some p => String.mk (splitFile p)

/-- Result of `GatherInfo`: the chunk table plus the fields set on the
downloader, an error return, or a runtime panic (`crash`). -/
inductive GatherResult
  | ok (chunks : List Chunk) (fileLength : Int) (etag : String)
      (filename : String) (partFilename : String)
  | error (msg : String)
  | crash
deriving DecidableEq, Repr

/-- `GatherInfo` as a function of the gathered probe results (in arrival
order) and the connection count: empty URL list check, probe check,
length/etag agreement against the first mirror, etag quote stripping,
filename derivation, and chunk-table construction. -/
def gatherInfoPure (res : List urlInfo) (nConns : Nat) : GatherResult :=
  match res with
  | [] => GatherResult.error "No URLs provided"
  | r0 :: rest =>
    match findBadProbe (r0 :: rest) with
    | some u => GatherResult.error ("Failed connection to URL " ++ u)
    | none =>
      if checkAgreementL r0.fileLength r0.etag rest = false then
        GatherResult.error "URLs must point to the same file"
      else
        match stripEtag r0.etag with
        | none => GatherResult.crash
        | some tag =>
          match buildChunks r0.fileLength nConns with
          | none => GatherResult.crash
          | some cs =>
            GatherResult.ok cs r0.fileLength tag (urlToFilename r0.url)
              (urlToFilename r0.url ++ tmpFileSuffix)

/-- Full characterisation of the agreement loop: it accepts exactly when
every listed mirror reports the reference length and an etag that is
empty or equal to the reference etag. -/
lemma checkAgreementL_eq_true_iff (L : Int) (t : String) (rs : List urlInfo) :
    checkAgreementL L t rs = true ↔
      ∀ r ∈ rs, r.fileLength = L ∧ (r.etag = "" ∨ r.etag = t) := by
  induction rs with
  | nil => simp [checkAgreementL]
  | cons r rs ih =>
    show (if r.fileLength ≠ L ∨ (r.etag ≠ "" ∧ r.etag ≠ t) then false
      else checkAgreementL L t rs) = true ↔ _
    by_cases h : r.fileLength ≠ L ∨ (r.etag ≠ "" ∧ r.etag ≠ t)
    · rw [if_pos h]
      simp only [Bool.false_eq_true, false_iff]
      intro hall
      obtain ⟨h1, h2⟩ := hall r (List.mem_cons_self r rs)
      tauto
    · rw [if_neg h, ih]
      push_neg at h
      constructor
      · intro hall r' hr'
        rcases List.mem_cons.mp hr' with he | hm
        · subst he
          refine ⟨h.1, ?_⟩
          by_cases ht : r'.etag = ""
          · exact Or.inl ht
          · exact Or.inr (h.2 ht)
        · exact hall r' hm
      · intro hall r' hr'
        exact hall r' (List.mem_cons_of_mem r hr')

/-- Claim C2 counterexample: three probes agreeing on length 100 whose
non-empty tags are all `"abc"`, but with the empty tag on the FIRST
mirror: reconciliation fails with the inconsistent-mirrors error, though
the claim says the agreement check succeeds regardless of where the
empty-tag mirrors appear. -/
theorem reconcile_empty_first_tag_fails :
    gatherInfoPure
      [⟨"u1", 100, "", true, 200⟩, ⟨"u2", 100, "abc", true, 200⟩,
        ⟨"u3", 100, "abc", true, 200⟩] 3 =
      GatherResult.error "URLs must point to the same file" := by
  decide

/-- Claim C2 (amended): the agreement check succeeds iff every mirror
after the first reports the first mirror's length and an etag that is
empty or equal to the FIRST mirror's etag; an empty etag on a non-first
mirror never causes failure (in particular tags `abc, "", abc` succeed
with common tag `abc`), but since the reference tag is the first
mirror's, the permutation with the empty tag first and a non-empty tag
later fails. -/
theorem reconcile_agreement_spec :
    (∀ (L : Int) (t : String) (rs : List urlInfo),
      checkAgreementL L t rs = true ↔
        ∀ r ∈ rs, r.fileLength = L ∧ (r.etag = "" ∨ r.etag = t)) ∧
    checkAgreementL 100 "abc"
      [⟨"u2", 100, "", true, 200⟩, ⟨"u3", 100, "abc", true, 200⟩] = true :=
  ⟨checkAgreementL_eq_true_iff, by decide⟩

/-- Claim C3 counterexample: the tag normalisation removes the first and
last character unconditionally, so the unquoted tag `"abc"` is changed to
`"b"` instead of being left unchanged, and a tag of length 1 hits the
out-of-range slice `etag[1:0]`, a Go runtime panic (modelled as `none`). -/
theorem stripEtag_cex :
    stripEtag "abc" = some "b" ∧ stripEtag "a" = none := by
  constructor
  · decide
  · decide

/-- Claim C3 (amended): the tag normalisation tolerates an absent (empty)
tag without indexing, and strips the surrounding quote characters from
any quoted tag; but it removes the first and last character of a
non-empty tag unconditionally, so an unquoted tag such as `"abc"` is
altered (to `"b"`) rather than left unchanged, and a tag of length 1
reaches an out-of-bounds slice (a panic). -/
theorem stripEtag_spec :
    stripEtag "" = some "" ∧
    (∀ t : String, stripEtag ("\"" ++ t ++ "\"") = some t) ∧
    (∀ s : String, s.toList.length = 1 → stripEtag s = none) ∧
    stripEtag "abc" = some "b" := by
  refine ⟨rfl, ?_, ?_, by decide⟩
  · intro t
    have hlist : ("\"" ++ t ++ "\"").toList = '"' :: (t.toList ++ ['"']) := rfl
    have hne : ("\"" ++ t ++ "\"") ≠ "" := by
      intro h
      have hd := congrArg String.toList h
      rw [hlist] at hd
      simp at hd
    have hlen : 2 ≤ ("\"" ++ t ++ "\"").toList.length := by
      rw [hlist]
      simp
    unfold stripEtag
    rw [if_neg hne, if_pos hlen]
    congr 1
    rw [hlist]
    simp
  · intro s hs
    have hne : s ≠ "" := by
      intro h
      rw [h] at hs
      simp at hs
    unfold stripEtag
    rw [if_neg hne, if_neg (by omega)]

/-- Witness for C3 at the quoted tag `"xyz"` and the length-1 tag `"x"`. -/
theorem stripEtag_spec_witness :
    stripEtag ("\"" ++ "xyz" ++ "\"") = some "xyz" ∧
    ("x" : String).toList.length = 1 ∧ stripEtag "x" = none :=
  ⟨stripEtag_spec.2.1 "xyz", by decide, stripEtag_spec.2.2.1 "x" (by decide)⟩

lemma findBadProbe_of_bad (res : List urlInfo) :
    (∃ r ∈ res, ¬(r.connSuccess = true ∧ r.statusCode = 200)) →
    ∃ u, findBadProbe res = some u := by
  induction res with
  | nil => rintro ⟨r, hr, _⟩; cases hr
  | cons r rs ih =>
    rintro ⟨r', hr', hbad⟩
    by_cases h : r.connSuccess = false ∨ r.statusCode ≠ 200
    · refine ⟨r.url, ?_⟩
      show (if r.connSuccess = false ∨ r.statusCode ≠ 200 then some r.url
        else findBadProbe rs) = some r.url
      rw [if_pos h]
    · have hgood : r.connSuccess = true ∧ r.statusCode = 200 := by
        constructor
        · cases hb : r.connSuccess
          · exact absurd (Or.inl hb) h
          · rfl
        · by_cases hs : r.statusCode = 200
          · exact hs
          · exact absurd (Or.inr hs) h
      rcases List.mem_cons.mp hr' with he | hm
      · subst he; exact absurd hgood hbad
      · obtain ⟨u, hu⟩ := ih ⟨r', hm, hbad⟩
        refine ⟨u, ?_⟩
        show (if r.connSuccess = false ∨ r.statusCode ≠ 200 then some r.url
          else findBadProbe rs) = some u
        rw [if_neg h]
        exact hu

/-- Claim C5: for every list of gathered probe results, if at least one
probe failed to connect or returned a non-200 status, `GatherInfo` fails
with a connection error naming some mirror, and in particular never
reaches the success case — no file identity is established even when a
majority of mirrors responded correctly. -/
theorem gatherInfo_probe_failure_aborts (res : List urlInfo) (nConns : Nat)
    (hbad : ∃ r ∈ res, ¬(r.connSuccess = true ∧ r.statusCode = 200)) :
    (∃ u, gatherInfoPure res nConns =
      GatherResult.error ("Failed connection to URL " ++ u)) ∧
    ∀ cs L t f p, gatherInfoPure res nConns ≠ GatherResult.ok cs L t f p := by
  obtain ⟨u, hu⟩ := findBadProbe_of_bad res hbad
  have hres : res ≠ [] := by
    rintro rfl
    obtain ⟨r, hr, _⟩ := hbad
    cases hr
  obtain ⟨r0, rest, rfl⟩ := List.exists_cons_of_ne_nil hres
  have hmain : gatherInfoPure (r0 :: rest) nConns =
      GatherResult.error ("Failed connection to URL " ++ u) := by
    simp only [gatherInfoPure, hu]
  refine ⟨⟨u, hmain⟩, ?_⟩
  intro cs L t f p hcontra
  rw [hmain] at hcontra
  simp at hcontra

/-- Witness for C5: a single mirror whose probe could not connect. -/
theorem gatherInfo_probe_failure_aborts_witness :
    (∃ r ∈ [(⟨"u", 0, "", false, 0⟩ : urlInfo)],
      ¬(r.connSuccess = true ∧ r.statusCode = 200)) ∧
    ((∃ u, gatherInfoPure [(⟨"u", 0, "", false, 0⟩ : urlInfo)] 1 =
      GatherResult.error ("Failed connection to URL " ++ u)) ∧
    ∀ cs L t f p, gatherInfoPure [(⟨"u", 0, "", false, 0⟩ : urlInfo)] 1 ≠
      GatherResult.ok cs L t f p) :=
  ⟨by decide, gatherInfo_probe_failure_aborts _ 1 (by decide)⟩

lemma mem_takeWhileChar (p : Char → Bool) :
    ∀ (l : List Char) (a : Char), a ∈ l.takeWhile p → p a = true := by
  intro l
  induction l with
  | nil => intro a h; simp at h
  | cons x xs ih =>
    intro a h
    rw [List.takeWhile_cons] at h
    by_cases hp : p x = true
    · rw [if_pos hp] at h
      rcases List.mem_cons.mp h with he | hm
      · subst he; exact hp
      · exact ih a hm
    · rw [if_neg hp] at h
      cases h

lemma splitFile_suffix (p : List Char) :
    p = (p.reverse.dropWhile (fun c => c != '/')).reverse ++ splitFile p := by
  have h := List.takeWhile_append_dropWhile
    (p := fun c => c != '/') (l := p.reverse)
  calc p = p.reverse.reverse := (List.reverse_reverse p).symm
    _ = ((p.reverse.takeWhile (fun c => c != '/')) ++
        (p.reverse.dropWhile (fun c => c != '/'))).reverse := by rw [h]
    _ = (p.reverse.dropWhile (fun c => c != '/')).reverse ++
        (p.reverse.takeWhile (fun c => c != '/')).reverse := by
      rw [List.reverse_append]

/-- Claim C7 counterexample: for `"http://example.com/"` the URL parses
(its path is `"/"`), the last path segment is empty, and `urlToFilename`
returns `""` rather than the fallback — the derived filename CAN be the
empty string. -/
theorem urlToFilename_empty_cex :
    urlToFilename "http://example.com/" = "" ∧
    ("" : String) ≠ "downloaded-file" := by
  constructor
  · decide
  · decide

/-- Claim C7 (amended): when the URL parses, the derived default filename
is the file component of the parsed path — a slash-free suffix of it,
which may be EMPTY (e.g. when the path ends in `/`); the fallback
`"downloaded-file"` is used exactly when URL parsing fails. -/
theorem urlToFilename_spec (s : String) :
    (parseUrlPath s.toList = none → urlToFilename s = "downloaded-file") ∧
    (∀ p, parseUrlPath s.toList = some p →
      (urlToFilename s).toList = splitFile p ∧
      (∃ pre, p = pre ++ (urlToFilename s).toList) ∧
      ∀ c ∈ (urlToFilename s).toList, c ≠ '/') := by
  constructor
  · intro h
    simp only [urlToFilename, h]
  · intro p hp
    simp only [urlToFilename, hp]
    refine ⟨rfl, ⟨(p.reverse.dropWhile (fun c => c != '/')).reverse, ?_⟩, ?_⟩
    · exact splitFile_suffix p
    · intro c hc
      have hmem : c ∈ p.reverse.takeWhile (fun c => c != '/') := by
        have : c ∈ splitFile p := hc
        unfold splitFile at this
        exact List.mem_reverse.mp this
      have := mem_takeWhileChar (fun c => c != '/') p.reverse c hmem
      simpa using this

/-- Witness for C7 at `"http://host/a.txt"`, whose parsed path is
`"/a.txt"` and derived filename `"a.txt"`. -/
theorem urlToFilename_spec_witness :
    parseUrlPath ("http://host/a.txt").toList = some ("/a.txt").toList ∧
    ((urlToFilename "http://host/a.txt").toList = splitFile ("/a.txt").toList ∧
      (∃ pre, ("/a.txt").toList =
        pre ++ (urlToFilename "http://host/a.txt").toList) ∧
      ∀ c ∈ (urlToFilename "http://host/a.txt").toList, c ≠ '/') :=
  ⟨by decide,
    (urlToFilename_spec "http://host/a.txt").2 ("/a.txt").toList (by decide)⟩

lemma checkAgreementL_false_of_mismatch (L : Int) (t : String)
    (rs : List urlInfo) :
    (∃ r ∈ rs, r.fileLength ≠ L) → checkAgreementL L t rs = false := by
  intro h
  cases hb : checkAgreementL L t rs
  · rfl
  · exfalso
    obtain ⟨r, hr, hne⟩ := h
    exact hne ((checkAgreementL_eq_true_iff L t rs).mp hb r hr).1

/-- Claim C9: a mirror whose probe connects with status 200 but whose
`Content-Length` header is missing or unparseable is still counted as a
successful probe, with a reported file length of 0; consequently the
agreement check fails as inconsistent whenever another mirror reports a
non-zero length, and an all-zero set of mirrors proceeds with agreed
length 0. -/
theorem contentLength_unparseable_probe (u : String) (r : HeadResponse)
    (h200 : r.statusCode = 200)
    (hcl : parseContentLength r.contentLength = none) :
    (processHead u (some r)).connSuccess = true ∧
    (processHead u (some r)).statusCode = 200 ∧
    (processHead u (some r)).fileLength = 0 ∧
    findBadProbe [processHead u (some r)] = none ∧
    (∀ rest : List urlInfo, (∃ r2 ∈ rest, r2.fileLength ≠ 0) →
      checkAgreementL (processHead u (some r)).fileLength
        (processHead u (some r)).etag rest = false) ∧
    (∀ rest : List urlInfo,
      (∀ r2 ∈ rest, r2.fileLength = 0 ∧
        (r2.etag = "" ∨ r2.etag = (processHead u (some r)).etag)) →
      checkAgreementL (processHead u (some r)).fileLength
        (processHead u (some r)).etag rest = true) := by
  have hfl : (processHead u (some r)).fileLength = 0 := by
    show (parseContentLength r.contentLength).getD 0 = 0
    rw [hcl]
    rfl
  have hsc : (processHead u (some r)).statusCode = 200 := h200
  refine ⟨rfl, hsc, hfl, ?_, ?_, ?_⟩
  · have hcond : ¬((processHead u (some r)).connSuccess = false ∨
        (processHead u (some r)).statusCode ≠ 200) := by
      rintro (h1 | h2)
      · simp [processHead] at h1
      · exact h2 hsc
    show (if (processHead u (some r)).connSuccess = false ∨
        (processHead u (some r)).statusCode ≠ 200 then
        some (processHead u (some r)).url else findBadProbe []) = none
    rw [if_neg hcond]
    rfl
  · intro rest h
    rw [hfl]
    exact checkAgreementL_false_of_mismatch 0 _ rest h
  · intro rest h
    rw [hfl]
    refine (checkAgreementL_eq_true_iff 0 _ rest).mpr ?_
    intro r2 hr2
    exact h r2 hr2

/-- Witness for C9: a 200 probe whose `Content-Length` is the
unparseable string `"xyz"`. -/
theorem contentLength_unparseable_probe_witness :
    (⟨200, "xyz", ""⟩ : HeadResponse).statusCode = 200 ∧
    parseContentLength (⟨200, "xyz", ""⟩ : HeadResponse).contentLength = none ∧
    ((processHead "m" (some ⟨200, "xyz", ""⟩)).connSuccess = true ∧
    (processHead "m" (some ⟨200, "xyz", ""⟩)).statusCode = 200 ∧
    (processHead "m" (some ⟨200, "xyz", ""⟩)).fileLength = 0 ∧
    findBadProbe [processHead "m" (some ⟨200, "xyz", ""⟩)] = none ∧
    (∀ rest : List urlInfo, (∃ r2 ∈ rest, r2.fileLength ≠ 0) →
      checkAgreementL (processHead "m" (some ⟨200, "xyz", ""⟩)).fileLength
        (processHead "m" (some ⟨200, "xyz", ""⟩)).etag rest = false) ∧
    (∀ rest : List urlInfo,
      (∀ r2 ∈ rest, r2.fileLength = 0 ∧
        (r2.etag = "" ∨ r2.etag = (processHead "m" (some ⟨200, "xyz", ""⟩)).etag)) →
      checkAgreementL (processHead "m" (some ⟨200, "xyz", ""⟩)).fileLength
        (processHead "m" (some ⟨200, "xyz", ""⟩)).etag rest = true)) :=
  ⟨rfl, by decide,
    contentLength_unparseable_probe "m" ⟨200, "xyz", ""⟩ rfl (by decide)⟩

/-- Claim C10: `GatherInfo` builds the chunk table itself — on success the
returned chunks are exactly `buildChunks` of the agreed length — and
`nConns ≥ 1` is a precondition for it to be total: with `nConns = 0` a
non-empty, fully agreeing mirror set reaches the division by zero inside
`buildChunks`. -/
theorem gatherInfo_builds_chunks (r0 : urlInfo) (rest : List urlInfo)
    (nConns : Nat)
    (hprobe : findBadProbe (r0 :: rest) = none)
    (hagree : checkAgreementL r0.fileLength r0.etag rest = true)
    (htag : stripEtag r0.etag ≠ none) :
    (∀ cs L t f p,
      gatherInfoPure (r0 :: rest) nConns = GatherResult.ok cs L t f p →
      buildChunks L nConns = some cs ∧ L = r0.fileLength) ∧
    gatherInfoPure (r0 :: rest) 0 = GatherResult.crash := by
  obtain ⟨tag, htag'⟩ := Option.ne_none_iff_exists'.mp htag
  have hcond : ¬ (checkAgreementL r0.fileLength r0.etag rest = false) := by
    rw [hagree]
    simp
  constructor
  · intro cs L t f p h
    simp only [gatherInfoPure, hprobe, htag'] at h
    rw [if_neg hcond] at h
    cases hbc : buildChunks r0.fileLength nConns with
    | none => rw [hbc] at h; simp at h
    | some cs' =>
      rw [hbc] at h
      simp only [GatherResult.ok.injEq] at h
      obtain ⟨h1, h2, _⟩ := h
      subst h1
      subst h2
      exact ⟨hbc, rfl⟩
  · simp only [gatherInfoPure, hprobe, htag']
    rw [if_neg hcond]
    have hzero : buildChunks r0.fileLength 0 = none := rfl
    rw [hzero]

/-- Witness for C10: one healthy agreeing mirror of length 10, run with
`nConns = 0`. -/
theorem gatherInfo_builds_chunks_witness :
    findBadProbe [(⟨"u", 10, "", true, 200⟩ : urlInfo)] = none ∧
    checkAgreementL (10 : Int) "" [] = true ∧
    stripEtag "" ≠ none ∧
    ((∀ cs L t f p,
      gatherInfoPure [(⟨"u", 10, "", true, 200⟩ : urlInfo)] 2 =
        GatherResult.ok cs L t f p →
      buildChunks L 2 = some cs ∧
        L = (⟨"u", 10, "", true, 200⟩ : urlInfo).fileLength) ∧
    gatherInfoPure [(⟨"u", 10, "", true, 200⟩ : urlInfo)] 0 =
      GatherResult.crash) :=
  ⟨by decide, by decide, by decide,
    gatherInfo_builds_chunks ⟨"u", 10, "", true, 200⟩ [] 2
      (by decide) (by decide) (by decide)⟩

/-- The downloader-state fields that `SetupFile` reads or writes. -/
structure DldrState where
  fileLength : Int
  filename : String
  partFilename : String
deriving DecidableEq, Repr

/-- File-system operations, in the order a function performs them. -/
inductive FsOp
  | create (path : String)
  | truncate (path : String) (len : Int)
  | writeAt (path : String) (offset : Int) (len : Nat)
  | rename (src : String) (dst : String)
deriving DecidableEq, Repr

/-- `SetupFile`: a non-empty filename argument redefines the output and
staging names; then `os.Create` creates (truncating any existing file)
the staging file and `Truncate` forces its length to the agreed file
size.  Returns the updated state and the file-system operations
performed, in order. -/
def SetupFile (st : DldrState) (filename : String) : DldrState × List FsOp :=
  let st' :=
    if filename ≠ "" then
      { st with
        filename := filename
        partFilename := filename ++ tmpFileSuffix }
    else st
  (st', [FsOp.create st'.partFilename,
    FsOp.truncate st'.partFilename st'.fileLength])

/-- Claim C8: `SetupFile` creates (or overwrites) the staging file at
exactly `finalName ++ ".part"` — `".part"` being the fixed literal
suffix — forces its length to the agreed file size before any chunk
write occurs (its trace is the create followed by the truncate, with no
write operation), and a non-empty filename argument redefines both the
final and the staging name from that argument. -/
theorem setupFile_spec (st : DldrState) (fn : String)
    (hinv : st.partFilename = st.filename ++ tmpFileSuffix) :
    ((SetupFile st fn).1.partFilename =
      (SetupFile st fn).1.filename ++ ".part") ∧
    ((SetupFile st fn).2 =
      [FsOp.create (SetupFile st fn).1.partFilename,
        FsOp.truncate (SetupFile st fn).1.partFilename st.fileLength]) ∧
    (∀ p off len, FsOp.writeAt p off len ∉ (SetupFile st fn).2) ∧
    (fn ≠ "" → (SetupFile st fn).1.filename = fn ∧
      (SetupFile st fn).1.partFilename = fn ++ ".part") ∧
    (fn = "" → (SetupFile st fn).1 = st) ∧
    tmpFileSuffix = ".part" := by
  rcases eq_or_ne fn "" with he | h
  · subst he
    have hs : SetupFile st "" =
        (st, [FsOp.create st.partFilename,
          FsOp.truncate st.partFilename st.fileLength]) := rfl
    rw [hs]
    refine ⟨hinv, rfl, ?_, fun hne => absurd rfl hne, fun _ => rfl, rfl⟩
    intro p off len hmem
    simp at hmem
  · have hs : SetupFile st fn =
        ({ st with filename := fn, partFilename := fn ++ tmpFileSuffix },
          [FsOp.create (fn ++ tmpFileSuffix),
            FsOp.truncate (fn ++ tmpFileSuffix) st.fileLength]) := by
      simp [SetupFile, h]
    rw [hs]
    refine ⟨rfl, rfl, ?_, fun _ => ⟨rfl, rfl⟩, fun he => absurd he h, rfl⟩
    intro p off len hmem
    simp at hmem

/-- Witness for C8 at a state with final name `"f"` and argument `"g"`. -/
theorem setupFile_spec_witness :
    (⟨10, "f", "f" ++ tmpFileSuffix⟩ : DldrState).partFilename =
      (⟨10, "f", "f" ++ tmpFileSuffix⟩ : DldrState).filename ++ tmpFileSuffix ∧
    (((SetupFile ⟨10, "f", "f" ++ tmpFileSuffix⟩ "g").1.partFilename =
      (SetupFile ⟨10, "f", "f" ++ tmpFileSuffix⟩ "g").1.filename ++ ".part") ∧
    ((SetupFile ⟨10, "f", "f" ++ tmpFileSuffix⟩ "g").2 =
      [FsOp.create (SetupFile ⟨10, "f", "f" ++ tmpFileSuffix⟩ "g").1.partFilename,
        FsOp.truncate
          (SetupFile ⟨10, "f", "f" ++ tmpFileSuffix⟩ "g").1.partFilename
          (⟨10, "f", "f" ++ tmpFileSuffix⟩ : DldrState).fileLength]) ∧
    (∀ p off len,
      FsOp.writeAt p off len ∉ (SetupFile ⟨10, "f", "f" ++ tmpFileSuffix⟩ "g").2) ∧
    (("g" : String) ≠ "" →
      (SetupFile ⟨10, "f", "f" ++ tmpFileSuffix⟩ "g").1.filename = "g" ∧
      (SetupFile ⟨10, "f", "f" ++ tmpFileSuffix⟩ "g").1.partFilename =
        "g" ++ ".part") ∧
    (("g" : String) = "" →
      (SetupFile ⟨10, "f", "f" ++ tmpFileSuffix⟩ "g").1 =
        ⟨10, "f", "f" ++ tmpFileSuffix⟩) ∧
    tmpFileSuffix = ".part") :=
  ⟨rfl, setupFile_spec ⟨10, "f", "f" ++ tmpFileSuffix⟩ "g" rfl⟩

/-- Lowercase hexadecimal digit, as produced by Go fmt's `%x` verb. -/
def hexDigitChar (n : Nat) : Char :=
  if n < 10 then Char.ofNat (48 + n) else Char.ofNat (87 + n)

/-- Lowercase hex rendering of a digest byte string
(`fmt.Sprintf("%x", bytes)`); bytes are naturals below 256. -/
def bytesToHex (bs : List Nat) : String :=
  String.mk (bs.foldr (fun b acc =>
    hexDigitChar (b / 16 % 16) :: hexDigitChar (b % 16) :: acc) [])

/-- The digest comparison shared by `CheckSHA256` and `CheckMD5`: render
the digest bytes that `hash.Sum` produced as lowercase hex and compare
them with Go string inequality against the caller-supplied string; on
divergence the returned error carries the provided and the computed
digest.  The hash computation itself (`crypto/sha256`, `crypto/md5`) is
left abstract: this function takes the computed digest bytes. -/
def digestCompare (computed : List Nat) (provided : String) :
    Option (String × String) :=
  if bytesToHex computed ≠ provided then some (provided, bytesToHex computed)
  else none

lemma hexDigitChar_range (n : Nat) (h : n < 16) :
    (hexDigitChar n).isDigit = true ∨
      ('a' ≤ hexDigitChar n ∧ hexDigitChar n ≤ 'f') := by
  interval_cases n <;> decide

lemma mem_bytesToHex (bs : List Nat) :
    ∀ c ∈ (bytesToHex bs).toList,
      c.isDigit = true ∨ ('a' ≤ c ∧ c ≤ 'f') := by
  show ∀ c ∈ bs.foldr (fun b acc =>
    hexDigitChar (b / 16 % 16) :: hexDigitChar (b % 16) :: acc) [], _
  induction bs with
  | nil => intro c hc; simp at hc
  | cons b bs ih =>
    intro c hc
    rcases List.mem_cons.mp hc with h1 | hc2
    · subst h1
      exact hexDigitChar_range _ (Nat.mod_lt _ (by omega))
    rcases List.mem_cons.mp hc2 with h2 | hc3
    · subst h2
      exact hexDigitChar_range _ (Nat.mod_lt _ (by omega))
    · exact ih c hc3

/-- Claim C6 counterexample: for digest bytes `[0xab]` the computed hex
is `"ab"`; the lowercase rendering is accepted but the uppercase
rendering `"AB"` of the very same digest value is rejected with a
mismatch error — the comparison is exact, not case-insensitive. -/
theorem digestCompare_case_cex :
    digestCompare [171] "ab" = none ∧
    digestCompare [171] "AB" = some ("AB", "ab") := by
  constructor
  · decide
  · decide

/-- Claim C6 (amended): `CheckSHA256`/`CheckMD5` render the computed
digest as a lowercase hex string (digits and `a`–`f` only) and compare it
to the caller-supplied string with exact, case-sensitive string equality:
nil is returned iff the supplied string is literally that lowercase
rendering, on divergence the error carries both the provided and the
computed digest, and an uppercase rendering of the correct digest is
rejected. -/
theorem digestCompare_spec (bs : List Nat) (s : String) :
    (digestCompare bs s = none ↔ s = bytesToHex bs) ∧
    (s ≠ bytesToHex bs → digestCompare bs s = some (s, bytesToHex bs)) ∧
    (∀ c ∈ (bytesToHex bs).toList,
      c.isDigit = true ∨ ('a' ≤ c ∧ c ≤ 'f')) := by
  refine ⟨?_, ?_, mem_bytesToHex bs⟩
  · unfold digestCompare
    by_cases h : bytesToHex bs ≠ s
    · rw [if_pos h]
      constructor
      · intro hx; exact Option.noConfusion hx
      · intro hx; exact absurd hx.symm h
    · rw [if_neg h]
      push_neg at h
      constructor
      · intro _; exact h.symm
      · intro _; rfl
  · intro hne
    unfold digestCompare
    rw [if_pos (fun he => hne he.symm)]

/-- Witness for C6 at digest bytes `[0xab]` and provided string `"AB"`. -/
theorem digestCompare_spec_witness :
    ("AB" : String) ≠ bytesToHex [171] ∧
    digestCompare [171] "AB" = some ("AB", bytesToHex [171]) :=
  ⟨by decide, (digestCompare_spec [171] "AB").2.1 (by decide)⟩
